import Mathlib

/-!
Verification of the AI-vs-AI Tetris arena (game_engine.py, bank.py,
ai_agent.py, arena.py) against its natural-language specification.
The Python code is shallowly embedded: grids are lists of rows of 0/1
cells, Python ints are `Int`/`Nat`, randomness (`random.choice`,
`random.randint`) is an explicit oracle stream `Nat → Nat` with a
threaded counter, `time.time()` is an explicit clock stream, and code
that can raise (`list.pop` on an empty list) returns `Option`.
-/

namespace TetrisArena

/-- Tetromino type tags, the keys of `SHAPES` / `TETROMINO_TYPES`. -/
inductive Pc where
  | I | O | T | S | Z | L | J
deriving DecidableEq

/-- Source: `TETROMINO_TYPES = ['I', 'O', 'T', 'S', 'Z', 'L', 'J']` (bank.py). -/
def TETROMINO_TYPES : List Pc := [Pc.I, Pc.O, Pc.T, Pc.S, Pc.Z, Pc.L, Pc.J]

/-- Source: the `SHAPES` dict of game_engine.py. -/
def SHAPES : Pc → List (List Nat)
  | Pc.I => [[1, 1, 1, 1]]
  | Pc.O => [[1, 1], [1, 1]]
  | Pc.T => [[0, 1, 0], [1, 1, 1]]
  | Pc.S => [[0, 1, 1], [1, 1, 0]]
  | Pc.Z => [[1, 1, 0], [0, 1, 1]]
  | Pc.L => [[1, 0], [1, 0], [1, 1]]
  | Pc.J => [[0, 1], [0, 1], [1, 1]]

/-- Source: class `Tetromino` (game_engine.py). -/
structure Tetromino where
  type : Pc
  shape : List (List Nat)
  rotation : Nat

/-- Source: `Tetromino.__init__`. -/
def Tetromino.mk' (t : Pc) : Tetromino := ⟨t, SHAPES t, 0⟩

/-- Source: `Tetromino.rotate`; Python `zip(*self.shape[::-1])` is the
transpose of the reversed row list (the shapes are rectangular, where
`zip` and `transpose` agree). -/
def Tetromino.rotate (t : Tetromino) : Tetromino :=
  { t with shape := t.shape.reverse.transpose, rotation := (t.rotation + 1) % 4 }

/-- Apply `rotate` n times (the `for _ in range(rotation)` loops). -/
def Tetromino.rotN (t : Tetromino) : Nat → Tetromino
  | 0 => t
  | n + 1 => (Tetromino.rotN t n).rotate

/-- Source: `Tetromino.get_width` (`len(self.shape[0]) if self.shape else 0`). -/
def Tetromino.get_width (t : Tetromino) : Nat := (t.shape.headD []).length

/-- Source: `Tetromino.get_height` (`len(self.shape)`). -/
def Tetromino.get_height (t : Tetromino) : Nat := t.shape.length

/-- Cell lookup `grid[r][c]`, defaulting to 0 out of range (the Python
code only indexes in range, guarded by explicit bounds checks). -/
def cellAt (g : List (List Nat)) (r c : Nat) : Nat := (g.getD r []).getD c 0

/-- Source: class `GameBoard` (game_engine.py): `width`, `height`, `grid`,
`score`, `lines_cleared`, `game_over`. -/
structure GameBoard where
  width : Nat
  height : Nat
  grid : List (List Nat)
  score : Nat
  lines_cleared : Nat
  game_over : Bool

/-- Source: `GameBoard.__init__(width, height)`. -/
def GameBoard.init (w h : Nat) : GameBoard :=
  ⟨w, h, List.replicate h (List.replicate w 0), 0, 0, false⟩

/-- Well-formedness of a board state as produced by the program: the grid
has `height` rows of `width` cells and positive dimensions (the arena only
ever constructs the default 10 by 20 boards). -/
def GameBoard.WF (b : GameBoard) : Prop :=
  b.grid.length = b.height ∧ (∀ row ∈ b.grid, row.length = b.width) ∧
    0 < b.width ∧ 0 < b.height

/-- Source: `GameBoard.can_place(piece, x, y)`. -/
def GameBoard.can_place (b : GameBoard) (piece : Tetromino) (x y : Int) : Bool :=
  piece.shape.enum.all fun re =>
    re.2.enum.all fun ce =>
      if ce.2 = 0 then true
      else
        let bo_y : Int := y + re.1
        let bo_x : Int := x + ce.1
        if bo_x < 0 ∨ (b.width : Int) ≤ bo_x ∨ bo_y < 0 ∨ (b.height : Int) ≤ bo_y then
          false
        else
          decide (cellAt b.grid bo_y.toNat bo_x.toNat = 0)

/-- One assignment `grid[r][c] = 1`. -/
def gridSet (g : List (List Nat)) (r c : Nat) : List (List Nat) :=
  g.set r ((g.getD r []).set c 1)

/-- Source: the body of the inner loop of `GameBoard.place_piece`: set
`grid[y + row_idx][x + col_idx] = 1` when the cell is occupied and the
target is inside the `height` by `width` box, else do nothing. -/
def placeCellStep (b : GameBoard) (x y : Int) (ri : Nat) (g : List (List Nat))
    (ce : Nat × Nat) : List (List Nat) :=
  if ce.2 ≠ 0 then
    if 0 ≤ y + (ri : Int) ∧ y + (ri : Int) < (b.height : Int) ∧
        0 ≤ x + (ce.1 : Int) ∧ x + (ce.1 : Int) < (b.width : Int) then
      gridSet g (y + (ri : Int)).toNat (x + (ce.1 : Int)).toNat
    else g
  else g

/-- Source: the outer loop of `place_piece` over `enumerate(piece.shape)`. -/
def placeRowStep (b : GameBoard) (x y : Int) (g : List (List Nat))
    (re : Nat × List Nat) : List (List Nat) :=
  re.2.enum.foldl (placeCellStep b x y re.1) g

/-- Source: `GameBoard.place_piece(piece, x, y)`: the nested loops over
`enumerate(piece.shape)`, setting each occupied in-bounds cell to 1. -/
def GameBoard.place_piece (b : GameBoard) (piece : Tetromino) (x y : Int) : GameBoard :=
  { b with grid := piece.shape.enum.foldl (placeRowStep b x y) b.grid }

/-- A fully filled row: Python `all(self.grid[y])` (every cell nonzero). -/
def rowFull (row : List Nat) : Bool := row.all fun c => c != 0

/-- Source: the `lines_to_clear` list of `GameBoard.clear_lines` (indices
`y in range(self.height)` with `all(self.grid[y])`, in increasing order). -/
def GameBoard.linesToClear (b : GameBoard) : List Nat :=
  (List.range b.height).filter fun y => rowFull (b.grid.getD y [])

/-- One iteration of the clearing loop: `del self.grid[y]` followed by
`self.grid.insert(0, [0]*width)`. -/
def clearStep (w : Nat) (g : List (List Nat)) (y : Nat) : List (List Nat) :=
  List.replicate w 0 :: g.eraseIdx y

/-- Source: the score table of `clear_lines`
(`{1: 100, 2: 300, 3: 500, 4: 800}.get(num_cleared, num_cleared * 100)`). -/
def scoreFor (n : Nat) : Nat :=
  if n = 1 then 100
  else if n = 2 then 300
  else if n = 3 then 500
  else if n = 4 then 800
  else n * 100

/-- Source: `GameBoard.clear_lines()`; returns the updated board and the
number of cleared rows. -/
def GameBoard.clear_lines (b : GameBoard) : GameBoard × Nat :=
  let lines := b.linesToClear
  let g := lines.foldl (clearStep b.width) b.grid
  let n := lines.length
  if 0 < n then
    ({ b with
        grid := g
        lines_cleared := b.lines_cleared + n
        score := b.score + scoreFor n }, n)
  else
    ({ b with grid := g }, n)

/-- The garbage row appended by `add_garbage_lines`: all 1s with a single
0 at the hole column. -/
def garbageRow (w hole : Nat) : List Nat := (List.replicate w 1).set hole 0

/-- Source: `GameBoard.add_garbage_lines(num_lines)`. `random.randint(0,
width-1)` is modelled by the oracle value reduced mod `width`; `rk` is the
oracle counter. `grid.pop(0)` on an empty grid raises in Python, hence the
`Option`. Returns the updated board and the advanced counter. -/
def GameBoard.add_garbage_lines (b : GameBoard) (rand : Nat → Nat) :
    Nat → Nat → Option (GameBoard × Nat)
  | rk, 0 => some (b, rk)
  | rk, n + 1 =>
    match b.grid with
    | [] => none
    | _ :: rest =>
      GameBoard.add_garbage_lines
        { b with grid := rest ++ [garbageRow b.width (rand rk % b.width)] }
        rand (rk + 1) n

/-- Source: `GameBoard.is_game_over()` (`any(self.grid[0])`). -/
def GameBoard.is_game_over (b : GameBoard) : Bool :=
  (b.grid.headD []).any fun c => c != 0

/-- Source: `GameBoard.get_height_map()`; the inner loop takes the first
filled cell from the top and reports `height - y`, else 0. -/
def GameBoard.get_height_map (b : GameBoard) : List Nat :=
  (List.range b.width).map fun x =>
    match (List.range b.height).find? (fun y => cellAt b.grid y x != 0) with
    | some y => b.height - y
    | none => 0

/-- Source: `GameBoard.get_max_height()` (`max(heights) if heights else 0`;
the fold with base 0 agrees since heights are naturals). -/
def GameBoard.get_max_height (b : GameBoard) : Nat :=
  b.get_height_map.foldl Nat.max 0

/-- Source: class `FigureBank` (bank.py); the dict over the seven types is
a function `Pc → Nat`. -/
structure FigureBank where
  bank : Pc → Nat
  initial_count : Nat

/-- Source: `FigureBank.__init__(initial_count)`. -/
def FigureBank.init (c : Nat) : FigureBank := ⟨fun _ => c, c⟩

/-- Source: `FigureBank.get_piece(piece_type)`; returns the Python result
and the updated bank. The `piece_type not in self.bank` branch is
unreachable here because `Pc` ranges exactly over the seven keys. -/
def FigureBank.get_piece (fb : FigureBank) (t : Pc) : Bool × FigureBank :=
  if 0 < fb.bank t then
    (true, { fb with bank := fun u => if u = t then fb.bank t - 1 else fb.bank u })
  else
    (false, fb)

/-- Source: `FigureBank.is_available(piece_type)`. -/
def FigureBank.is_available (fb : FigureBank) (t : Pc) : Bool :=
  decide (0 < fb.bank t)

/-- Source: `FigureBank.get_available_pieces()` (in `TETROMINO_TYPES` order). -/
def FigureBank.get_available_pieces (fb : FigureBank) : List Pc :=
  TETROMINO_TYPES.filter fun t => decide (0 < fb.bank t)

/-- Source: `FigureBank.is_empty()`. -/
def FigureBank.is_empty (fb : FigureBank) : Bool :=
  TETROMINO_TYPES.all fun t => decide (fb.bank t = 0)

/-- Source: `FigureBank.get_state()` (the dict copy, as an association
list in `TETROMINO_TYPES` order). -/
def FigureBank.get_state (fb : FigureBank) : List (Pc × Nat) :=
  TETROMINO_TYPES.map fun t => (t, fb.bank t)

/-- Source: `AIAgent._count_potential_lines(board)` (count of fully
filled rows). -/
def GameBoard.count_potential_lines (b : GameBoard) : Nat :=
  (List.range b.height).countP fun y => rowFull (b.grid.getD y [])

/-- Source: the hole count of `AIAgent._evaluate_position`: per column, a
`found_block` flag and a counter over the rows from the top. -/
def holesCount (b : GameBoard) : Nat :=
  (List.range b.width).foldl (fun acc x =>
    ((List.range b.height).foldl (fun st y =>
        if cellAt b.grid y x != 0 then (true, st.2)
        else if st.1 then (true, st.2 + 1) else st)
      (false, acc)).2) 0

/-- Source: `AIAgent._evaluate_position(board, piece, x, y)`. The test
board is a fresh `GameBoard(width, height)` whose grid is a copy of the
input grid, with the piece placed on it. All scores are integers. -/
def evaluatePos (strategy : String) (b : GameBoard) (piece : Tetromino) (x y : Int) : Int :=
  let tb := GameBoard.place_piece { GameBoard.init b.width b.height with grid := b.grid } piece x y
  let max_height : Int := tb.get_max_height
  let heights := tb.get_height_map
  let bumpiness : Int :=
    (((List.range (heights.length - 1)).map fun i =>
      ((heights.getD i 0 : Int) - (heights.getD (i + 1) 0 : Int)).natAbs).sum : Nat)
  let holes : Int := holesCount tb
  if strategy = "greedy" then -max_height * 2 - holes * 5 - bumpiness
  else if strategy = "defensive" then -max_height * 3 - holes * 10 - bumpiness * 2
  else if strategy = "aggressive" then
    ((GameBoard.count_potential_lines tb : Int)) * 100 - max_height - holes * 3
  else -max_height - holes

/-- Source: the inner `while y < board.height and board.can_place(...)`
loop of `decide_placement`, starting from a given `y`. The fuel is
`height - y`; the `y < height` guard is kept in the body, so with fuel
`height - y` the function computes exactly the Python loop (fuel 0
forces `y ≥ height`, where the guard fails anyway). -/
def dropLoopAux (b : GameBoard) (piece : Tetromino) (x : Int) : Nat → Nat → Nat
  | 0, y => y
  | fuel + 1, y =>
    if y < b.height ∧ b.can_place piece x (y : Int) then dropLoopAux b piece x fuel (y + 1)
    else y

/-- The drop loop from row `y` with its canonical fuel. -/
def dropLoop (b : GameBoard) (piece : Tetromino) (x : Int) (y : Nat) : Nat :=
  dropLoopAux b piece x (b.height - y) y

/-- Source: the hard-drop simulation of `decide_placement` for one
`(rotation, x)`: run the loop from `y = 0`, step back one row (`y -= 1`),
and keep the row only if `y >= 0 and board.can_place(piece_copy, x, y)`;
`none` is the skipped case. -/
def dropSim (b : GameBoard) (piece : Tetromino) (x : Int) : Option Nat :=
  let ye := dropLoop b piece x 0
  if 1 ≤ ye ∧ b.can_place piece x ((ye : Int) - 1) then some (ye - 1) else none

/-- Source: the `score > best_score` update of `decide_placement`;
`none` is the initial `best_position = None` / `best_score = -inf` state
(every integer score exceeds `-inf`, so the first candidate is taken). -/
def argStep (best : Option ((Nat × Nat × Nat) × Int)) (c : (Nat × Nat × Nat) × Int) :
    Option ((Nat × Nat × Nat) × Int) :=
  match best with
  | none => some c
  | some q => if c.2 > q.2 then some c else some q

/-- Source: the search of `AIAgent.decide_placement` over `rotation in
range(4)` and `x in range(board.width - piece_copy.get_width() + 1)`
(written `width + 1 - get_width` so that Nat truncation matches Python's
empty range when the piece is wider than the board). The piece searched
is the fresh `Tetromino(piece.type)` rotated `rotation` times. -/
def decideCore (strategy : String) (b : GameBoard) (t : Pc) : Option ((Nat × Nat × Nat) × Int) :=
  (List.range 4).foldl (fun best rotation =>
    let piece_copy := (Tetromino.mk' t).rotN rotation
    (List.range (b.width + 1 - piece_copy.get_width)).foldl (fun best (x : Nat) =>
      match dropSim b piece_copy (x : Int) with
      | none => best
      | some y => argStep best ((x, y, rotation), evaluatePos strategy b piece_copy (x : Int) (y : Int)))
      best) none

/-- Source: `AIAgent.decide_placement(board, piece)` minus the timing
bookkeeping (threaded separately in the arena embedding): the best
position if any (`if best_position:` tests for `None`, since a 3-tuple is
always truthy), else the fallback `(board.width // 2, 0, 0)`. -/
def decide_placement (strategy : String) (b : GameBoard) (t : Pc) : Nat × Nat × Nat :=
  match decideCore strategy b t with
  | some q => q.1
  | none => (b.width / 2, 0, 0)

/-- Source: class `AIAgent` state (`name`, `strategy`, `decision_times`). -/
structure AIAgent where
  name : String
  strategy : String
  decision_times : List Nat

/-- Python `random.choice(lst)`: the oracle value `rand rk` picks the
index, `rk` advances by one. All call sites guard non-emptiness (Python
raises on an empty list; the default is never reached there). -/
def choice (l : List Pc) (rand : Nat → Nat) (rk : Nat) : Pc × Nat :=
  (l.getD (rand rk % l.length) Pc.I, rk + 1)

/-- Source: `FigureBank.get_random_available()`. -/
def FigureBank.get_random_available (fb : FigureBank) (rand : Nat → Nat) (rk : Nat) :
    Option Pc × Nat :=
  let available := fb.get_available_pieces
  if available = [] then (none, rk)
  else
    let pr := choice available rand rk
    (some pr.1, pr.2)

/-- Source: `AIAgent.choose_attack_piece(bank)`. An empty strategy branch
falls through to the default `random.choice(available)`. -/
def AIAgent.choose_attack_piece (ai : AIAgent) (fb : FigureBank) (rand : Nat → Nat)
    (rk : Nat) : Option Pc × Nat :=
  let available := fb.get_available_pieces
  if available = [] then (none, rk)
  else if ai.strategy = "aggressive" then
    let difficult_available := [Pc.T, Pc.L, Pc.J].filter fun p => available.contains p
    if difficult_available ≠ [] then
      let pr := choice difficult_available rand rk
      (some pr.1, pr.2)
    else
      let pr := choice available rand rk
      (some pr.1, pr.2)
  else if ai.strategy = "defensive" then
    let easy_available := [Pc.I, Pc.O].filter fun p => available.contains p
    if easy_available ≠ [] then
      let pr := choice easy_available rand rk
      (some pr.1, pr.2)
    else
      let pr := choice available rand rk
      (some pr.1, pr.2)
  else
    let pr := choice available rand rk
    (some pr.1, pr.2)

/-- Source: `Arena._get_next_piece()`: draw a random available type from
the bank, else fall back to `random.choice(TETROMINO_TYPES)` without
touching the bank. -/
def getNextPiece (fb : FigureBank) (rand : Nat → Nat) (rk : Nat) : Pc × FigureBank × Nat :=
  match fb.get_random_available rand rk with
  | (some t, rk') => (t, (fb.get_piece t).2, rk')
  | (none, rk') =>
    let pr := choice TETROMINO_TYPES rand rk'
    (pr.1, fb, pr.2)

/-- Source: the event dicts appended by `MatchLog.log_turn` and
`MatchLog.log_game_over` (arena.py). -/
inductive Event where
  | turnEv (turn : Nat) (player : String) (piece_type : Pc)
      (placement : Nat × Nat × Nat) (lines_cleared : Nat) (decision_time : Nat)
      (bank_state : List (Pc × Nat)) (attack_piece : Option Pc) (timestamp : Nat)
  | gameOverEv (winner : String) (ai1_score ai2_score ai1_lines ai2_lines : Nat)
      (timestamp : Nat)
deriving DecidableEq

/-- Source: the timing bookkeeping of `AIAgent.decide_placement`
(`time.time()` before and after, appending the difference to
`self.decision_times`); `ck` is the clock-stream counter. -/
def decideTimed (ai : AIAgent) (clock : Nat → Nat) (ck : Nat) (b : GameBoard) (t : Pc) :
    (Nat × Nat × Nat) × AIAgent × Nat :=
  let t0 := clock ck
  let pos := decide_placement ai.strategy b t
  let t1 := clock (ck + 1)
  (pos, { ai with decision_times := ai.decision_times ++ [t1 - t0] }, ck + 2)

/-- Result of one `Arena.play_turn` call: the returned triple
`(lines_cleared, decision_time, attack_piece)` plus the mutated board and
agent and the advanced oracle counters. -/
structure TurnResult where
  lines_cleared : Nat
  decision_time : Nat
  attack : Option Pc
  board : GameBoard
  ai : AIAgent
  rk : Nat
  ck : Nat

/-- Source: `Arena.play_turn(ai, board, piece_type)`. When the decided
placement fails `can_place`, the board's `game_over` flag is set and the
turn returns `(0, 0.0, None)` without placing or clearing. -/
def play_turn (ai : AIAgent) (b : GameBoard) (t : Pc) (fb : FigureBank)
    (rand clock : Nat → Nat) (rk ck : Nat) : TurnResult :=
  let piece := Tetromino.mk' t
  let dtd := decideTimed ai clock ck b piece.type
  let pos := dtd.1
  let ai' := dtd.2.1
  let ck' := dtd.2.2
  let piece' := piece.rotN pos.2.2
  if b.can_place piece' (pos.1 : Int) (pos.2.1 : Int) then
    let b1 := b.place_piece piece' (pos.1 : Int) (pos.2.1 : Int)
    let cl := b1.clear_lines
    let ar := if 0 < cl.2 then ai'.choose_attack_piece fb rand rk else (none, rk)
    let dt := match ai'.decision_times.getLast? with
      | some d => d
      | none => 0
    ⟨cl.2, dt, ar.1, cl.1, ai', ar.2, ck'⟩
  else
    ⟨0, 0, none, { b with game_over := true }, ai', rk, ck'⟩

/-- Source: `Arena` state (`__init__`): the two agents, their boards, the
shared bank, the match log (`events` plus the log's `start_time`), the
turn counter, the current pieces (set by `run_match` before the loop) and
the pending garbage queues. -/
structure ArenaState where
  ai1 : AIAgent
  ai2 : AIAgent
  board1 : GameBoard
  board2 : GameBoard
  bank : FigureBank
  events : List Event
  log_start : Nat
  turn : Nat
  current_piece_ai1 : Option Pc
  current_piece_ai2 : Option Pc
  garbage_queue_ai1 : Nat
  garbage_queue_ai2 : Nat

/-- Source: `Arena.__init__(ai1, ai2, bank)`; the boards are default
`GameBoard()` 10 by 20 boards and `MatchLog.__init__` records
`start_time = time.time()` (one clock tick). -/
def Arena.init (ai1 ai2 : AIAgent) (fb : FigureBank) (clock : Nat → Nat) : ArenaState :=
  ⟨ai1, ai2, GameBoard.init 10 20, GameBoard.init 10 20, fb, [], clock 0, 0,
    none, none, 0, 0⟩

/-- Source: `MatchLog.log_game_over(...)` followed by returning the
winner (the tail of both loss branches and of the max-turns exit of
`run_match`). -/
def logGameOver (st : ArenaState) (winner : String) (clock : Nat → Nat) (ck : Nat) :
    ArenaState :=
  { st with events := st.events ++
      [Event.gameOverEv winner st.board1.score st.board2.score
        st.board1.lines_cleared st.board2.lines_cleared (clock ck - st.log_start)] }

/-- Source: the `while self.turn < max_turns` loop of `Arena.run_match`;
the fuel argument is `max_turns - turn`, which decreases by exactly one
per iteration because each iteration increments `self.turn` once, so fuel
0 is exactly the exit `turn >= max_turns`. `none` models an uncaught
Python exception (only `add_garbage_lines` on an empty grid can raise). -/
def runLoop (rand clock : Nat → Nat) :
    Nat → ArenaState → Nat → Nat → Option (String × ArenaState)
  | 0, st, _, ck =>
    -- Max turns reached, determine winner by score
    let winner := if st.board1.score > st.board2.score then st.ai1.name else st.ai2.name
    some (winner, logGameOver st winner clock ck)
  | fuel + 1, st, rk, ck =>
    let st := { st with turn := st.turn + 1 }
    -- Process garbage for AI1 (assigning a queue of 0 to itself when empty)
    match (if 0 < st.garbage_queue_ai1 then
        st.board1.add_garbage_lines rand rk st.garbage_queue_ai1
      else some (st.board1, rk)) with
    | none => none
    | some g1 =>
      let st := { st with board1 := g1.1, garbage_queue_ai1 := 0 }
      let rk := g1.2
      -- AI1's turn
      let tr1 := play_turn st.ai1 st.board1 (st.current_piece_ai1.getD Pc.I) st.bank
        rand clock rk ck
      let st := { st with board1 := tr1.board, ai1 := tr1.ai }
      let st := { st with events := st.events ++
        [Event.turnEv st.turn st.ai1.name (st.current_piece_ai1.getD Pc.I)
          (0, 0, 0) tr1.lines_cleared tr1.decision_time st.bank.get_state
          tr1.attack (clock tr1.ck - st.log_start)] }
      let ck := tr1.ck + 1
      -- Send garbage to AI2
      let st := if 0 < tr1.lines_cleared then
          { st with garbage_queue_ai2 := st.garbage_queue_ai2 + tr1.lines_cleared }
        else st
      -- Update AI1's piece
      let up1 : Option Pc × FigureBank × Nat :=
        match tr1.attack with
        | some ap =>
          if st.bank.is_available ap then (some ap, (st.bank.get_piece ap).2, tr1.rk)
          else
            let np := getNextPiece st.bank rand tr1.rk
            (some np.1, np.2.1, np.2.2)
        | none =>
          let np := getNextPiece st.bank rand tr1.rk
          (some np.1, np.2.1, np.2.2)
      let st := { st with current_piece_ai1 := up1.1, bank := up1.2.1 }
      let rk := up1.2.2
      -- Check if AI1 lost
      if st.board1.is_game_over then
        some (st.ai2.name, logGameOver st st.ai2.name clock ck)
      else
        -- Process garbage for AI2
        match (if 0 < st.garbage_queue_ai2 then
            st.board2.add_garbage_lines rand rk st.garbage_queue_ai2
          else some (st.board2, rk)) with
        | none => none
        | some g2 =>
          let st := { st with board2 := g2.1, garbage_queue_ai2 := 0 }
          let rk := g2.2
          -- AI2's turn
          let tr2 := play_turn st.ai2 st.board2 (st.current_piece_ai2.getD Pc.I) st.bank
            rand clock rk ck
          let st := { st with board2 := tr2.board, ai2 := tr2.ai }
          let st := { st with events := st.events ++
            [Event.turnEv st.turn st.ai2.name (st.current_piece_ai2.getD Pc.I)
              (0, 0, 0) tr2.lines_cleared tr2.decision_time st.bank.get_state
              tr2.attack (clock tr2.ck - st.log_start)] }
          let ck := tr2.ck + 1
          -- Send garbage to AI1
          let st := if 0 < tr2.lines_cleared then
              { st with garbage_queue_ai1 := st.garbage_queue_ai1 + tr2.lines_cleared }
            else st
          -- Update AI2's piece
          let up2 : Option Pc × FigureBank × Nat :=
            match tr2.attack with
            | some ap =>
              if st.bank.is_available ap then (some ap, (st.bank.get_piece ap).2, tr2.rk)
              else
                let np := getNextPiece st.bank rand tr2.rk
                (some np.1, np.2.1, np.2.2)
            | none =>
              let np := getNextPiece st.bank rand tr2.rk
              (some np.1, np.2.1, np.2.2)
          let st := { st with current_piece_ai2 := up2.1, bank := up2.2.1 }
          let rk := up2.2.2
          -- Check if AI2 lost
          if st.board2.is_game_over then
            some (st.ai1.name, logGameOver st st.ai1.name clock ck)
          else
            runLoop rand clock fuel st rk ck

/-- Source: `Arena.run_match(max_turns)`: draw the two initial pieces,
then run the loop; returns the winner's name and the final state. -/
def run_match (st : ArenaState) (rand clock : Nat → Nat) (max_turns : Nat) :
    Option (String × ArenaState) :=
  let n1 := getNextPiece st.bank rand 0
  let n2 := getNextPiece n1.2.1 rand n1.2.2
  runLoop rand clock (max_turns - st.turn)
    { st with
        bank := n2.2.1
        current_piece_ai1 := some n1.1
        current_piece_ai2 := some n2.1 }
    n2.2.2 1

/-! Specification-side definitions (written from the spec's wording, to be
related to the source embedding above), and concrete inputs used by
witnesses and counterexamples. -/

/-- Candidate list of `decide_placement` in the spec's search order:
rotation ascending, then x ascending, keeping only `(rotation, x)` pairs
whose hard drop rests, paired with their heuristic score. -/
def candList (strategy : String) (b : GameBoard) (t : Pc) : List ((Nat × Nat × Nat) × Int) :=
  (List.range 4).flatMap fun rotation =>
    let piece_copy := (Tetromino.mk' t).rotN rotation
    (List.range (b.width + 1 - piece_copy.get_width)).filterMap fun (x : Nat) =>
      (dropSim b piece_copy (x : Int)).map fun y =>
        ((x, y, rotation), evaluatePos strategy b piece_copy (x : Int) (y : Int))

/-- Spec-side coverage predicate for `place_piece`: board cell `(r, c)` is
covered by an occupied cell of the piece placed at offset `(x, y)`. -/
def coveredB (piece : Tetromino) (x y : Int) (r c : Nat) : Bool :=
  piece.shape.enum.any fun re =>
    re.2.enum.any fun ce =>
      decide (ce.2 ≠ 0 ∧ y + re.1 = (r : Int) ∧ x + ce.1 = (c : Int))

/-- A 2 by 2 board whose top row is occupied (terminal) and whose bottom
row is full, for the C3 counterexample. -/
def bC3 : GameBoard := ⟨2, 2, [[1, 0], [1, 1]], 0, 0, false⟩

/-- A 10 by 20 board whose only filled cell is the top-left corner: an
overhang under which the drop simulation cannot pass. -/
def bC4 : GameBoard :=
  { GameBoard.init 10 20 with
    grid := [1, 0, 0, 0, 0, 0, 0, 0, 0, 0] :: List.replicate 19 (List.replicate 10 0) }

/-- A 10 by 20 board with a full bottom row and all other rows empty (the
single-line-clear scenario). -/
def bFull : GameBoard :=
  { GameBoard.init 10 20 with
    grid := List.replicate 19 (List.replicate 10 0) ++ [List.replicate 10 1] }

/-- A 10 by 20 grid with an empty top row and rows 1..19 full except a
hole in column 0: no placement of piece O is valid anywhere, the fallback
(5, 0, 0) collides in row 1, yet the top row stays empty. -/
def gridB0 : List (List Nat) :=
  List.replicate 10 0 :: List.replicate 19 [0, 1, 1, 1, 1, 1, 1, 1, 1, 1]

/-- Arena state for the C1 run: side A holds the blocked board `gridB0`,
side B an empty board, fresh bank of 15, no pending garbage. -/
def stC1 : ArenaState :=
  { ai1 := ⟨"A", "greedy", []⟩
    ai2 := ⟨"B", "greedy", []⟩
    board1 := { GameBoard.init 10 20 with grid := gridB0 }
    board2 := GameBoard.init 10 20
    bank := FigureBank.init 15
    events := []
    log_start := 0
    turn := 0
    current_piece_ai1 := none
    current_piece_ai2 := none
    garbage_queue_ai1 := 0
    garbage_queue_ai2 := 0 }

/-- Oracle for the C1 run: the first `random.choice` picks index 1 (piece
O for side A), all later picks index 0. -/
def randC1 : Nat → Nat := fun k => if k = 0 then 1 else 0

/-- A constant clock stream (all decision times 0). -/
def clockC0 : Nat → Nat := fun _ => 0

/-- Fresh arena state for the C2 run: both boards empty. -/
def stC2 : ArenaState :=
  { ai1 := ⟨"A", "greedy", []⟩
    ai2 := ⟨"B", "greedy", []⟩
    board1 := GameBoard.init 10 20
    board2 := GameBoard.init 10 20
    bank := FigureBank.init 15
    events := []
    log_start := 0
    turn := 0
    current_piece_ai1 := none
    current_piece_ai2 := none
    garbage_queue_ai1 := 0
    garbage_queue_ai2 := 0 }

/-- Oracle for the C2 run: every `random.choice` picks index 0 (piece I). -/
def randC2 : Nat → Nat := fun _ => 0

/-- Whether an event is a committed-turn record of the named player. -/
def isTurnEvOf (p : String) : Event → Bool
  | Event.turnEv _ q _ _ _ _ _ _ _ => decide (q = p)
  | _ => false

/-- The placement field of a turn event. -/
def eventPlacement : Event → Option (Nat × Nat × Nat)
  | Event.turnEv _ _ _ pl _ _ _ _ _ => some pl
  | _ => none

/-- One draw of piece I from the bank, iterated in the C7 scenario. -/
def drawI (fb : FigureBank) : FigureBank := (fb.get_piece Pc.I).2

/-- A fully blocked 2 by 2 board: no placement is valid anywhere. -/
def bAllOnes : GameBoard := ⟨2, 2, [[1, 1], [1, 1]], 0, 0, false⟩

/-! Helper lemmas. -/

/-- Folding a step that preserves a predicate preserves it. -/
lemma foldl_preserve {α β : Type} (P : α → Prop) (f : α → β → α)
    (hf : ∀ a c, P a → P (f a c)) : ∀ (l : List β) (a : α), P a → P (l.foldl f a)
  | [], _, h => h
  | c :: l, a, h => foldl_preserve P f hf l (f a c) (hf a c h)

/-- Setting a cell to 1 keeps the top row non-empty. -/
lemma is_game_over_gridSet (g : List (List Nat)) (r c : Nat)
    (h : (g.headD []).any (fun v => v != 0) = true) :
    ((gridSet g r c).headD []).any (fun v => v != 0) = true := by
  cases g with
  | nil => simp at h
  | cons row rest =>
    cases r with
    | zero =>
      have hset : gridSet (row :: rest) 0 c = (row.set c 1) :: rest := rfl
      rw [hset]
      simp only [List.headD_cons] at h ⊢
      by_cases hc : c < row.length
      · have hlen : c < (row.set c 1).length := by simpa using hc
        have h1 : (row.set c 1)[c] = 1 := List.getElem_set_self hlen
        refine List.any_eq_true.mpr ⟨(row.set c 1)[c], List.getElem_mem hlen, ?_⟩
        rw [h1]
        decide
      · rw [List.set_eq_of_length_le (by omega)]
        exact h
    | succ r' =>
      have hset : gridSet (row :: rest) (r' + 1) c =
          row :: (rest.set r' ((rest.getD r' []).set c 1)) := rfl
      rw [hset]
      simpa using h

/-- The `add_garbage_lines` loop never touches the `game_over` flag nor
the score fields. -/
lemma add_garbage_fields : ∀ (n : Nat) (b : GameBoard) (rand : Nat → Nat) (rk : Nat) r,
    b.add_garbage_lines rand rk n = some r →
    r.1.game_over = b.game_over ∧ r.1.score = b.score ∧
      r.1.lines_cleared = b.lines_cleared ∧ r.1.width = b.width ∧ r.1.height = b.height := by
  intro n
  induction n with
  | zero =>
    intro b rand rk r h
    simp only [GameBoard.add_garbage_lines, Option.some.injEq] at h
    subst h
    exact ⟨rfl, rfl, rfl, rfl, rfl⟩
  | succ n ih =>
    intro b rand rk r h
    rw [GameBoard.add_garbage_lines] at h
    cases hg : b.grid with
    | nil => rw [hg] at h; exact absurd h (by simp)
    | cons top rest =>
      rw [hg] at h
      have h2 : GameBoard.add_garbage_lines
          { b with grid := rest ++ [garbageRow b.width (rand rk % b.width)] }
          rand (rk + 1) n = some r := h
      exact ih { b with grid := rest ++ [garbageRow b.width (rand rk % b.width)] }
        rand (rk + 1) r h2

/-- `clear_lines` never touches the `game_over` flag. -/
lemma clear_lines_game_over (b : GameBoard) : (b.clear_lines).1.game_over = b.game_over := by
  unfold GameBoard.clear_lines
  by_cases h : 0 < b.linesToClear.length <;> simp [h]

/-- The drop loop with sufficient fuel returns the first row at or after
`y` where the loop condition fails, and the condition holds at every row
passed over. -/
lemma dropLoopAux_spec (b : GameBoard) (piece : Tetromino) (x : Int) :
    ∀ (fuel y : Nat), b.height - y ≤ fuel →
      y ≤ dropLoopAux b piece x fuel y ∧
      (∀ k, y ≤ k → k < dropLoopAux b piece x fuel y →
        k < b.height ∧ b.can_place piece x (k : Int) = true) ∧
      ¬(dropLoopAux b piece x fuel y < b.height ∧
        b.can_place piece x ((dropLoopAux b piece x fuel y : Nat) : Int) = true) := by
  intro fuel
  induction fuel with
  | zero =>
    intro y hy
    refine ⟨Nat.le_refl y, fun k hk1 hk2 => absurd (Nat.lt_of_le_of_lt hk1 hk2) ?_, ?_⟩
    · simp [dropLoopAux]
    · simp only [dropLoopAux]
      intro hcon
      omega
  | succ n ih =>
    intro y hy
    by_cases hc : y < b.height ∧ b.can_place piece x (y : Int) = true
    · rw [dropLoopAux, if_pos hc]
      obtain ⟨h1, h2, h3⟩ := ih (y + 1) (by omega)
      refine ⟨by omega, ?_, h3⟩
      intro k hk1 hk2
      rcases Nat.eq_or_lt_of_le hk1 with heq | hlt
      · exact heq ▸ hc
      · exact h2 k hlt hk2
    · rw [dropLoopAux, if_neg hc]
      exact ⟨Nat.le_refl y, fun k hk1 hk2 => by omega, hc⟩

/-- Placing a piece preserves a non-empty top row. -/
lemma is_game_over_place (b : GameBoard) (p : Tetromino) (x y : Int)
    (h : b.is_game_over = true) : (b.place_piece p x y).is_game_over = true := by
  show ((p.shape.enum.foldl (placeRowStep b x y) b.grid).headD []).any (fun v => v != 0) = true
  refine foldl_preserve (fun g => (g.headD []).any (fun v => v != 0) = true)
    (placeRowStep b x y) ?_ _ _ h
  intro a re ha
  unfold placeRowStep
  refine foldl_preserve (fun g => (g.headD []).any (fun v => v != 0) = true)
    (placeCellStep b x y re.1) ?_ _ _ ha
  intro a' ce ha'
  unfold placeCellStep
  split
  · split
    · exact is_game_over_gridSet _ _ _ ha'
    · exact ha'
  · exact ha'

/-- Splitting a `set` on a replicated row. -/
lemma set_replicate_one : ∀ (i w : Nat), i < w →
    (List.replicate w (1 : Nat)).set i 0 =
      List.replicate i 1 ++ 0 :: List.replicate (w - i - 1) 1 := by
  intro i
  induction i with
  | zero =>
    intro w hw
    cases w with
    | zero => omega
    | succ w' => simp [List.replicate_succ]
  | succ i ih =>
    intro w hw
    cases w with
    | zero => omega
    | succ w' =>
      simp only [List.replicate_succ, List.set_cons_succ, List.cons_append,
        List.cons.injEq, true_and]
      have he : w' + 1 - (i + 1) - 1 = w' - i - 1 := by omega
      rw [he]
      exact ih w' (by omega)

/-- A garbage row has width `w`. -/
lemma garbageRow_length (w h : Nat) : (garbageRow w h).length = w := by
  simp [garbageRow]

/-- A garbage row with an in-range hole has exactly one empty cell. -/
lemma garbageRow_count (w h : Nat) (hh : h < w) : (garbageRow w h).count 0 = 1 := by
  unfold garbageRow
  rw [set_replicate_one h w hh]
  rw [List.count_append, List.count_cons_self]
  simp [List.count_replicate]

/-- The empty cell of a garbage row sits at the hole column. -/
lemma garbageRow_hole (w h : Nat) (hh : h < w) : (garbageRow w h).getD h 1 = 0 := by
  have hl : h < (garbageRow w h).length := by rw [garbageRow_length]; exact hh
  rw [List.getD_eq_getElem _ _ hl]
  exact List.getElem_set_self (by simpa [garbageRow] using hh)

/-- Closed form of the `add_garbage_lines` loop on a non-empty grid:
after n iterations the grid is the original grid with the n garbage rows
appended, minus its first n rows. -/
lemma add_garbage_spec (rand : Nat → Nat) : ∀ (n : Nat) (b : GameBoard) (rk : Nat),
    0 < b.grid.length →
    b.add_garbage_lines rand rk n =
      some ({ b with grid := (b.grid ++ (List.range n).map fun i =>
        garbageRow b.width (rand (rk + i) % b.width)).drop n }, rk + n) := by
  intro n
  induction n with
  | zero =>
    intro b rk _
    simp only [GameBoard.add_garbage_lines, List.range_zero, List.map_nil,
      List.append_nil, List.drop_zero, Nat.add_zero]
  | succ n ih =>
    intro b rk h
    rw [GameBoard.add_garbage_lines]
    cases hg : b.grid with
    | nil => rw [hg] at h; simp at h
    | cons top rest =>
      show GameBoard.add_garbage_lines
          { b with grid := rest ++ [garbageRow b.width (rand rk % b.width)] }
          rand (rk + 1) n = _
      rw [ih { b with grid := rest ++ [garbageRow b.width (rand rk % b.width)] }
        (rk + 1) (by simp)]
      have hgrid : ((rest ++ [garbageRow b.width (rand rk % b.width)]) ++
            (List.range n).map fun i =>
              garbageRow b.width (rand (rk + 1 + i) % b.width)).drop n =
          ((top :: rest) ++ (List.range (n + 1)).map fun i =>
            garbageRow b.width (rand (rk + i) % b.width)).drop (n + 1) := by
        rw [List.range_succ_eq_map, List.map_cons, List.map_map, List.cons_append,
          List.drop_succ_cons, Nat.add_zero, List.append_assoc, List.singleton_append]
        have hfun : (List.range n).map ((fun i =>
              garbageRow b.width (rand (rk + i) % b.width)) ∘ Nat.succ) =
            (List.range n).map fun i =>
              garbageRow b.width (rand (rk + 1 + i) % b.width) := by
          refine List.map_congr_left fun i _ => ?_
          have : rk + Nat.succ i = rk + 1 + i := by omega
          simp [Function.comp, this]
        rw [hfun]
        simp
      rw [hgrid]
      have hrk : rk + 1 + n = rk + (n + 1) := by omega
      rw [hrk]

/-- Index list of the rows satisfying `P`, in increasing order (the shape
of `lines_to_clear` relative to a grid). -/
def idxsP (P : List Nat → Bool) (g : List (List Nat)) : List Nat :=
  (List.range g.length).filter fun y => P (g.getD y [])

/-- Recursive characterization of `idxsP`. -/
lemma idxsP_cons (P : List Nat → Bool) (r : List Nat) (g : List (List Nat)) :
    idxsP P (r :: g) =
      if P r then 0 :: (idxsP P g).map Nat.succ else (idxsP P g).map Nat.succ := by
  unfold idxsP
  rw [List.length_cons, List.range_succ_eq_map, List.filter_cons]
  have hmap : List.filter (fun y => P ((r :: g).getD y [])) (List.map Nat.succ (List.range g.length)) =
      List.map Nat.succ (List.filter (fun y => P (g.getD y [])) (List.range g.length)) := by
    rw [List.filter_map]
    refine congrArg _ (List.filter_congr fun y _ => ?_)
    simp [Function.comp]
  rw [hmap]
  simp only [List.getD_cons_zero]

/-- The index list is strictly increasing. -/
lemma idxsP_pairwise (P : List Nat → Bool) (g : List (List Nat)) :
    (idxsP P g).Pairwise (· < ·) :=
  List.Pairwise.filter _ (List.pairwise_lt_range _)

/-- The index list counts the rows satisfying `P`. -/
lemma idxsP_length (P : List Nat → Bool) : ∀ (g : List (List Nat)),
    (idxsP P g).length = g.countP P := by
  intro g
  induction g with
  | nil => rfl
  | cons r g ih =>
    rw [idxsP_cons, List.countP_cons]
    by_cases hr : P r <;> simp [hr, ih]

/-- A strictly increasing list of naturals all below `y` has at most `y`
elements. -/
lemma length_le_of_pairwise_lt_bound (zs : List Nat) (y : Nat)
    (hp : zs.Pairwise (· < ·)) (hb : ∀ z ∈ zs, z < y) : zs.length ≤ y := by
  have hnd : zs.Nodup := hp.imp fun h => Nat.ne_of_lt h
  have hsub : zs.toFinset ⊆ Finset.range y := fun z hz =>
    Finset.mem_range.mpr (hb z (List.mem_toFinset.mp hz))
  have hcard := Finset.card_le_card hsub
  rw [List.toFinset_card_of_nodup hnd] at hcard
  simpa using hcard

/-- Erasing strictly after an insertion point commutes with the insertion. -/
lemma eraseIdx_insertIdx_of_le {α : Type} : ∀ (n y : Nat) (F : List α) (a : α),
    n ≤ y → (F.insertIdx n a).eraseIdx (y + 1) = (F.eraseIdx y).insertIdx n a := by
  intro n
  induction n with
  | zero =>
    intro y F a _
    rw [List.insertIdx_zero, List.insertIdx_zero, List.eraseIdx_cons_succ]
  | succ n ih =>
    intro y F a hny
    cases F with
    | nil => rfl
    | cons b F =>
      cases y with
      | zero => omega
      | succ y' =>
        rw [List.insertIdx_succ_cons, List.eraseIdx_cons_succ, List.eraseIdx_cons_succ,
          List.insertIdx_succ_cons, ih y' F a (by omega)]

/-- Inserting at the boundary of a replicate prefix. -/
lemma insertIdx_replicate_append {α : Type} (E a : α) : ∀ (k : Nat) (l : List α),
    (List.replicate k E ++ l).insertIdx k a = List.replicate k E ++ a :: l := by
  intro k
  induction k with
  | zero => intro l; simp
  | succ k ih =>
    intro l
    rw [List.replicate_succ, List.cons_append, List.insertIdx_succ_cons, ih]
    simp [List.replicate_succ]

/-- Shift lemma for the clearing fold: shifted indices over a grid with a
fresh empty top row act under the empty row. -/
lemma foldl_clearStep_shift (w : Nat) : ∀ (ys : List Nat) (t : List (List Nat)),
    (ys.map Nat.succ).foldl (clearStep w) (List.replicate w 0 :: t) =
      List.replicate w 0 :: ys.foldl (clearStep w) t := by
  intro ys
  induction ys with
  | nil => intro t; rfl
  | cons y ys ih =>
    intro t
    have hstep : clearStep w (List.replicate w 0 :: t) (Nat.succ y) =
        List.replicate w 0 :: clearStep w t y := rfl
    rw [List.map_cons, List.foldl_cons, List.foldl_cons, hstep]
    exact ih (clearStep w t y)

/-- Cons lemma for the clearing fold: a surviving head row ends up right
after the empty rows produced by the fold on the tail. -/
lemma foldl_clearStep_cons (w : Nat) (ys : List Nat) : ys.Pairwise (· < ·) →
    ∀ (t : List (List Nat)) (a : List Nat),
      (ys.map Nat.succ).foldl (clearStep w) (a :: t) =
        (ys.foldl (clearStep w) t).insertIdx ys.length a := by
  induction ys using List.reverseRecOn with
  | nil =>
    intro _ t a
    simp [List.insertIdx_zero]
  | append_singleton zs y ih =>
    intro hp t a
    have hzs : zs.Pairwise (· < ·) := hp.sublist (List.sublist_append_left _ _)
    have hbound : ∀ z ∈ zs, z < y := by
      intro z hz
      exact (List.pairwise_append.mp hp).2.2 z hz y (by simp)
    have hlen : zs.length ≤ y := length_le_of_pairwise_lt_bound zs y hzs hbound
    rw [List.map_append, List.foldl_append, List.foldl_append, ih hzs t a]
    simp only [List.map_cons, List.map_nil, List.foldl_cons, List.foldl_nil]
    have hstep : clearStep w ((zs.foldl (clearStep w) t).insertIdx zs.length a)
        (Nat.succ y) = List.replicate w 0 ::
          (((zs.foldl (clearStep w) t).eraseIdx y).insertIdx zs.length a) := by
      unfold clearStep
      rw [eraseIdx_insertIdx_of_le zs.length y _ a hlen]
    rw [hstep]
    have hstep2 : clearStep w (zs.foldl (clearStep w) t) y =
        List.replicate w 0 :: (zs.foldl (clearStep w) t).eraseIdx y := rfl
    rw [hstep2, List.length_append, List.length_singleton,
      List.insertIdx_succ_cons]

/-- Master lemma: the `del`/`insert(0, ...)` loop of `clear_lines` over
the increasing index list of full rows replaces each full row with a
fresh empty top row and keeps the remaining rows in order. -/
lemma foldl_clearStep_spec (w : Nat) (P : List Nat → Bool) : ∀ (g : List (List Nat)),
    (idxsP P g).foldl (clearStep w) g =
      List.replicate (g.countP P) (List.replicate w 0) ++ g.filter (fun r => !P r) := by
  intro g
  induction g with
  | nil => rfl
  | cons r g ih =>
    rw [idxsP_cons]
    by_cases hr : P r
    · rw [if_pos hr, List.foldl_cons]
      have h0 : clearStep w (r :: g) 0 = List.replicate w 0 :: g := rfl
      rw [h0, foldl_clearStep_shift w (idxsP P g) g, ih]
      rw [List.countP_cons, List.filter_cons]
      simp [hr, List.replicate_succ]
    · rw [if_neg hr, foldl_clearStep_cons w (idxsP P g) (idxsP_pairwise P g) g r, ih,
        idxsP_length]
      simp [hr, insertIdx_replicate_append, List.countP_cons, List.filter_cons]

/-- Full characterization of `clear_lines` on a well-sized grid: the
cleared count is the number of full rows, the grid becomes that many
fresh empty rows on top of the surviving rows in order, the totals update
accordingly, and a clear count of 0 changes nothing. -/
lemma clear_lines_spec (b : GameBoard) (hlen : b.grid.length = b.height) :
    (b.clear_lines).2 = b.grid.countP rowFull ∧
    (b.clear_lines).1.grid =
      List.replicate (b.grid.countP rowFull) (List.replicate b.width 0) ++
        b.grid.filter (fun r => !rowFull r) ∧
    (b.clear_lines).1.width = b.width ∧
    (b.clear_lines).1.height = b.height ∧
    (b.clear_lines).1.lines_cleared = b.lines_cleared + b.grid.countP rowFull ∧
    (b.clear_lines).1.score = b.score +
      (if b.grid.countP rowFull = 0 then 0 else scoreFor (b.grid.countP rowFull)) ∧
    (b.grid.countP rowFull = 0 → b.clear_lines = (b, 0)) := by
  have hltc : b.linesToClear = idxsP rowFull b.grid := by
    unfold GameBoard.linesToClear idxsP
    rw [hlen]
  have hcnt : b.linesToClear.length = b.grid.countP rowFull := by
    rw [hltc, idxsP_length]
  have hfold : b.linesToClear.foldl (clearStep b.width) b.grid =
      List.replicate (b.grid.countP rowFull) (List.replicate b.width 0) ++
        b.grid.filter (fun r => !rowFull r) := by
    rw [hltc]
    exact foldl_clearStep_spec b.width rowFull b.grid
  by_cases hn : 0 < b.linesToClear.length
  · have hcl : b.clear_lines =
        ({ b with
            grid := b.linesToClear.foldl (clearStep b.width) b.grid
            lines_cleared := b.lines_cleared + b.linesToClear.length
            score := b.score + scoreFor b.linesToClear.length },
          b.linesToClear.length) := by
      unfold GameBoard.clear_lines
      rw [if_pos hn]
    rw [hcl]
    have hpos : b.grid.countP rowFull ≠ 0 := by omega
    refine ⟨hcnt, ?_, rfl, rfl, by rw [hcnt], ?_, fun h0 => absurd h0 hpos⟩
    · exact hfold
    · rw [if_neg hpos, hcnt]
  · have h0 : b.linesToClear.length = 0 := by omega
    have hnil : b.linesToClear = [] := List.length_eq_zero.mp h0
    have hcl : b.clear_lines = ({ b with grid := b.grid }, 0) := by
      unfold GameBoard.clear_lines
      rw [if_neg hn, hnil]
      rfl
    have hcnt0 : b.grid.countP rowFull = 0 := by omega
    rw [hcl]
    have heta : ({ b with grid := b.grid } : GameBoard) = b := rfl
    rw [heta]
    refine ⟨hcnt0.symm, ?_, rfl, rfl, by simp [hcnt0], by rw [if_pos hcnt0]; simp,
      fun _ => rfl⟩
    rw [hcnt0, List.replicate_zero, List.nil_append]
    rw [List.filter_eq_self.mpr]
    intro r hr
    have : ¬rowFull r = true := by
      intro hfull
      have : b.grid.countP rowFull ≠ 0 := by
        rw [ne_eq, List.countP_eq_zero]
        push_neg
        exact ⟨r, hr, hfull⟩
      omega
    simp [this]

/-- The default branch of the score table. -/
lemma scoreFor_of_ge (n : Nat) (h : 5 ≤ n) : scoreFor n = n * 100 := by
  unfold scoreFor
  rw [if_neg (by omega), if_neg (by omega), if_neg (by omega), if_neg (by omega)]

/-- Row lookup after a row replacement. -/
lemma getD_set_row {α : Type} (g : List (List α)) (r : Nat) (row : List α) (i : Nat) :
    ((g.set r row).getD i []) = if r = i ∧ r < g.length then row else g.getD i [] := by
  rw [List.getD_eq_getElem?_getD, List.getD_eq_getElem?_getD, List.getElem?_set]
  by_cases hri : r = i
  · subst hri
    by_cases hlt : r < g.length
    · simp [hlt]
    · have hnone : g[r]? = none := List.getElem?_eq_none (by omega)
      simp [hlt, hnone]
  · simp [hri]

/-- Cell lookup after one in-bounds `grid[r][c] = 1` assignment. -/
lemma cellAt_gridSet (g : List (List Nat)) (r c r' c' : Nat) (hr : r < g.length)
    (hc : c < (g.getD r []).length) :
    cellAt (gridSet g r c) r' c' = if r = r' ∧ c = c' then 1 else cellAt g r' c' := by
  unfold cellAt gridSet
  rw [getD_set_row]
  by_cases hrr : r = r'
  · subst hrr
    rw [if_pos ⟨rfl, hr⟩]
    rw [List.getD_eq_getElem?_getD ((g.getD r []).set c 1), List.getElem?_set]
    by_cases hcc : c = c'
    · subst hcc
      rw [if_pos rfl, if_pos hc]
      simp
    · simp only [if_neg hcc]
      rw [if_neg (fun h => hcc h.2)]
      simp [List.getD_eq_getElem?_getD]
  · rw [if_neg (fun h => hrr h.1), if_neg (fun h => hrr h.1)]

/-- The flattened list of per-cell writes performed by `place_piece`, in
execution order: `(row_idx, col_idx, cell)`. -/
def placeWrites (p : Tetromino) : List (Nat × Nat × Nat) :=
  (p.shape.enum.map fun re => re.2.enum.map fun ce => (re.1, ce.1, ce.2)).flatten

/-- The nested placement loops equal a single fold over the write list. -/
lemma place_grid_flat (b : GameBoard) (p : Tetromino) (x y : Int) :
    (b.place_piece p x y).grid =
      (placeWrites p).foldl
        (fun g w => placeCellStep b x y w.1 g (w.2.1, w.2.2)) b.grid := by
  show p.shape.enum.foldl (placeRowStep b x y) b.grid = _
  rw [placeWrites, List.foldl_flatten, List.foldl_map]
  have hfun : placeRowStep b x y = fun a re =>
      ((re.2.enum.map fun ce => (re.1, ce.1, ce.2)).foldl
        (fun g w => placeCellStep b x y w.1 g (w.2.1, w.2.2)) a) := by
    funext a re
    unfold placeRowStep
    rw [List.foldl_map]
  rw [hfun]

/-- One write step preserves the dimensions of the grid. -/
lemma placeCellStep_dims (b : GameBoard) (x y : Int) (ri : Nat)
    (g : List (List Nat)) (ce : Nat × Nat) :
    (placeCellStep b x y ri g ce).length = g.length ∧
    ∀ i, ((placeCellStep b x y ri g ce).getD i []).length = (g.getD i []).length := by
  unfold placeCellStep
  split
  · split
    · unfold gridSet
      refine ⟨List.length_set _ _ _, fun i => ?_⟩
      rw [getD_set_row]
      split
      · next hcond => rw [List.length_set, hcond.1]
      · rfl
    · exact ⟨rfl, fun _ => rfl⟩
  · exact ⟨rfl, fun _ => rfl⟩

/-- The write fold preserves the dimensions of the grid. -/
lemma place_fold_dims (b : GameBoard) (x y : Int) :
    ∀ (ws : List (Nat × Nat × Nat)) (g : List (List Nat)),
      (ws.foldl (fun g w => placeCellStep b x y w.1 g (w.2.1, w.2.2)) g).length = g.length ∧
      ∀ i, ((ws.foldl (fun g w => placeCellStep b x y w.1 g (w.2.1, w.2.2)) g).getD i []).length =
        (g.getD i []).length := by
  intro ws
  induction ws with
  | nil => exact fun g => ⟨rfl, fun _ => rfl⟩
  | cons w ws ih =>
    intro g
    obtain ⟨hl, hr⟩ := ih (placeCellStep b x y w.1 g (w.2.1, w.2.2))
    obtain ⟨hl2, hr2⟩ := placeCellStep_dims b x y w.1 g (w.2.1, w.2.2)
    exact ⟨by rw [List.foldl_cons, hl, hl2],
      fun i => by rw [List.foldl_cons, hr i, hr2 i]⟩

/-- Cell-level characterization of the write fold: a queried in-box cell
is 1 exactly when some write targets it, and is untouched otherwise. -/
lemma cellAt_writes (b : GameBoard) (x y : Int) :
    ∀ (ws : List (Nat × Nat × Nat)) (g : List (List Nat)),
      g.length = b.height → (∀ i, i < g.length → (g.getD i []).length = b.width) →
      ∀ r c, r < b.height → c < b.width →
      cellAt (ws.foldl (fun g w => placeCellStep b x y w.1 g (w.2.1, w.2.2)) g) r c =
        if ws.any (fun w =>
            decide (w.2.2 ≠ 0 ∧ y + (w.1 : Int) = (r : Int) ∧ x + (w.2.1 : Int) = (c : Int)))
        then 1 else cellAt g r c := by
  intro ws
  induction ws with
  | nil =>
    intro g _ _ r c _ _
    simp
  | cons w ws ih =>
    intro g hgl hgw r c hr hc
    rw [List.foldl_cons, List.any_cons]
    obtain ⟨hl2, hr2⟩ := placeCellStep_dims b x y w.1 g (w.2.1, w.2.2)
    have ihg := ih (placeCellStep b x y w.1 g (w.2.1, w.2.2)) (by omega)
      (fun i hi => by rw [hr2 i]; exact hgw i (by omega)) r c hr hc
    rw [ihg]
    cases hany : ws.any (fun w =>
        decide (w.2.2 ≠ 0 ∧ y + (w.1 : Int) = (r : Int) ∧ x + (w.2.1 : Int) = (c : Int))) with
    | true => rw [Bool.or_true, if_pos rfl, if_pos rfl]
    | false =>
      rw [Bool.or_false, if_neg Bool.false_ne_true]
      by_cases hpred : w.2.2 ≠ 0 ∧ y + (w.1 : Int) = (r : Int) ∧ x + (w.2.1 : Int) = (c : Int)
      · rw [if_pos (decide_eq_true hpred)]
        obtain ⟨hv, hyy, hxx⟩ := hpred
        have hguard : 0 ≤ y + (w.1 : Int) ∧ y + (w.1 : Int) < (b.height : Int) ∧
            0 ≤ x + (w.2.1 : Int) ∧ x + (w.2.1 : Int) < (b.width : Int) := by
          refine ⟨by omega, by omega, by omega, by omega⟩
        have hstep : placeCellStep b x y w.1 g (w.2.1, w.2.2) =
            gridSet g (y + (w.1 : Int)).toNat (x + (w.2.1 : Int)).toNat := by
          unfold placeCellStep
          rw [if_pos hv, if_pos hguard]
        rw [hstep]
        have hrn : (y + (w.1 : Int)).toNat = r := by omega
        have hcn : (x + (w.2.1 : Int)).toNat = c := by omega
        rw [hrn, hcn]
        rw [cellAt_gridSet g r c r c (by omega) (by rw [hgw r (by omega)]; exact hc)]
        rw [if_pos ⟨rfl, rfl⟩]
      · rw [if_neg (fun h => hpred (of_decide_eq_true h))]
        by_cases hv : w.2.2 ≠ 0
        · by_cases hguard : 0 ≤ y + (w.1 : Int) ∧ y + (w.1 : Int) < (b.height : Int) ∧
              0 ≤ x + (w.2.1 : Int) ∧ x + (w.2.1 : Int) < (b.width : Int)
          · have hstep : placeCellStep b x y w.1 g (w.2.1, w.2.2) =
                gridSet g (y + (w.1 : Int)).toNat (x + (w.2.1 : Int)).toNat := by
              unfold placeCellStep
              rw [if_pos hv, if_pos hguard]
            rw [hstep]
            have hrn : (y + (w.1 : Int)).toNat < g.length := by omega
            have hcn : (x + (w.2.1 : Int)).toNat <
                (g.getD (y + (w.1 : Int)).toNat []).length := by
              rw [hgw _ (by omega)]
              omega
            rw [cellAt_gridSet g _ _ r c hrn hcn]
            rw [if_neg (fun hand => hpred ⟨hv, by omega, by omega⟩)]
          · have hstep : placeCellStep b x y w.1 g (w.2.1, w.2.2) = g := by
              unfold placeCellStep
              rw [if_pos hv, if_neg hguard]
            rw [hstep]
        · have hstep : placeCellStep b x y w.1 g (w.2.1, w.2.2) = g := by
            unfold placeCellStep
            rw [if_neg hv]
          rw [hstep]

/-- The spec-side coverage predicate equals "some write targets the cell". -/
lemma coveredB_eq_writes_any (p : Tetromino) (x y : Int) (r c : Nat) :
    coveredB p x y r c = (placeWrites p).any (fun w =>
      decide (w.2.2 ≠ 0 ∧ y + (w.1 : Int) = (r : Int) ∧ x + (w.2.1 : Int) = (c : Int))) := by
  unfold coveredB placeWrites
  rw [Bool.eq_iff_iff]
  simp only [List.any_eq_true, List.mem_flatten, List.mem_map]
  constructor
  · rintro ⟨re, hre, ce, hce, h⟩
    refine ⟨(re.1, ce.1, ce.2),
      ⟨re.2.enum.map fun ce => (re.1, ce.1, ce.2), ⟨re, hre, rfl⟩, ?_⟩, ?_⟩
    · exact List.mem_map.mpr ⟨ce, hce, rfl⟩
    · exact h
  · rintro ⟨w, ⟨l, ⟨re, hre, rfl⟩, hw⟩, h⟩
    obtain ⟨ce, hce, rfl⟩ := List.mem_map.mp hw
    exact ⟨re, hre, ce, hce, h⟩

/-- Folding over a `filterMap` skips the `none` elements. -/
lemma foldl_filterMap {α β γ : Type} (f : α → Option β) (step : γ → β → γ) :
    ∀ (l : List α) (init : γ),
      (l.filterMap f).foldl step init =
        l.foldl (fun acc a =>
          match f a with
          | none => acc
          | some b2 => step acc b2) init := by
  intro l
  induction l with
  | nil => intro init; rfl
  | cons a l ih =>
    intro init
    rw [List.filterMap_cons]
    cases hfa : f a with
    | none => rw [List.foldl_cons, hfa, ih]
    | some b2 => rw [List.foldl_cons, List.foldl_cons, hfa, ih]

/-- Folding over a `flatMap` is the nested fold. -/
lemma foldl_flatMap {α β γ : Type} (g : α → List β) (step : γ → β → γ) :
    ∀ (l : List α) (init : γ),
      (l.flatMap g).foldl step init = l.foldl (fun acc a => (g a).foldl step acc) init := by
  intro l
  induction l with
  | nil => intro init; rfl
  | cons a l ih =>
    intro init
    rw [List.flatMap_cons, List.foldl_append, List.foldl_cons, ih]

/-- The nested search of `decide_placement` equals the strict-greater
fold over the flat candidate list. -/
lemma decideCore_eq_foldl (strategy : String) (b : GameBoard) (t : Pc) :
    decideCore strategy b t = (candList strategy b t).foldl argStep none := by
  unfold decideCore candList
  rw [foldl_flatMap]
  congr 1
  funext best rotation
  dsimp only
  rw [foldl_filterMap]
  congr 1
  funext acc x
  cases hds : dropSim b ((Tetromino.mk' t).rotN rotation) (x : Int) <;> simp [hds]

/-- The strict-greater fold keeps the first maximum: starting from a
current best, the result splits the candidate sequence into a strictly
smaller prefix, the winner, and a no-greater suffix. -/
lemma argmax_fold : ∀ (cs : List ((Nat × Nat × Nat) × Int)) (cur : (Nat × Nat × Nat) × Int),
    ∃ c l1 l2, cs.foldl argStep (some cur) = some c ∧
      cur :: cs = l1 ++ c :: l2 ∧ (∀ a ∈ l1, a.2 < c.2) ∧ (∀ a ∈ l2, a.2 ≤ c.2) := by
  intro cs
  induction cs with
  | nil =>
    intro cur
    exact ⟨cur, [], [], rfl, rfl, by simp, by simp⟩
  | cons d cs ih =>
    intro cur
    rw [List.foldl_cons]
    by_cases hd : d.2 > cur.2
    · have hstep : argStep (some cur) d = some d := by
        have hdef : argStep (some cur) d = if d.2 > cur.2 then some d else some cur := rfl
        rw [hdef, if_pos hd]
      rw [hstep]
      obtain ⟨c, l1, l2, hfold, hsplit, hl1, hl2⟩ := ih d
      refine ⟨c, cur :: l1, l2, hfold, by rw [List.cons_append, ← hsplit], ?_, hl2⟩
      intro a ha
      rcases List.mem_cons.mp ha with hac | hal
      · subst hac
        have hdc : d.2 ≤ c.2 := by
          cases l1 with
          | nil =>
            have : d = c := (List.cons.injEq _ _ _ _ ▸ hsplit).1
            rw [this]
          | cons e l1' =>
            have he : d = e := by
              have := hsplit
              rw [List.cons_append] at this
              exact (List.cons.injEq _ _ _ _ ▸ this).1
            exact le_of_lt (he ▸ hl1 e (List.mem_cons_self e l1'))
        omega
      · exact hl1 a hal
    · have hstep : argStep (some cur) d = some cur := by
        have hdef : argStep (some cur) d = if d.2 > cur.2 then some d else some cur := rfl
        rw [hdef, if_neg hd]
      rw [hstep]
      obtain ⟨c, l1, l2, hfold, hsplit, hl1, hl2⟩ := ih cur
      cases l1 with
      | nil =>
        have hcur : cur = c ∧ cs = l2 := by
          constructor
          · exact (List.cons.injEq _ _ _ _ ▸ hsplit).1
          · exact (List.cons.injEq _ _ _ _ ▸ hsplit).2
        refine ⟨c, [], d :: l2, hfold, ?_, by simp, ?_⟩
        · rw [List.nil_append, ← hcur.1, ← hcur.2]
        · intro a ha
          rcases List.mem_cons.mp ha with hac | hal
          · subst hac
            rw [← hcur.1]
            omega
          · exact hl2 a hal
      | cons e l1' =>
        have he : cur = e ∧ cs = l1' ++ c :: l2 := by
          rw [List.cons_append] at hsplit
          exact ⟨(List.cons.injEq _ _ _ _ ▸ hsplit).1, (List.cons.injEq _ _ _ _ ▸ hsplit).2⟩
        refine ⟨c, cur :: d :: l1', l2, hfold, ?_, ?_, hl2⟩
        · rw [List.cons_append, List.cons_append, ← he.2]
        · intro a ha
          have hcurlt : cur.2 < c.2 := he.1 ▸ hl1 e (List.mem_cons_self e l1')
          rcases List.mem_cons.mp ha with hac | hal
          · subst hac
            exact hcurlt
          · rcases List.mem_cons.mp hal with had | hal'
            · subst had
              omega
            · exact hl1 a (List.mem_cons_of_mem e hal')

/-! Claim theorems. -/

/-- C3 counterexample: a board whose top row is occupied (`is_game_over`
true) where `clear_lines` clears the full bottom row, shifting the top row
down and making `is_game_over` false again — refuting the claim that the
terminal condition survives every subsequent board operation. -/
theorem c3_counterexample :
    bC3.is_game_over = true ∧ (bC3.clear_lines).1.is_game_over = false := by decide

/-- C3 (amended): once the terminal condition (`is_game_over`, top row
non-empty) is observably true it remains true after `place_piece`, and
none of `place_piece`, `clear_lines`, `add_garbage_lines` ever resets the
stored `game_over` flag; however `clear_lines` and `add_garbage_lines`
can make the top row empty again (see the counterexample). -/
theorem c3_terminal_preserved (b : GameBoard) (p : Tetromino) (x y : Int)
    (h : b.is_game_over = true) :
    (b.place_piece p x y).is_game_over = true ∧
    (b.place_piece p x y).game_over = b.game_over ∧
    (b.clear_lines).1.game_over = b.game_over ∧
    (∀ rand rk n r, b.add_garbage_lines rand rk n = some r →
      r.1.game_over = b.game_over) := by
  exact ⟨is_game_over_place b p x y h, rfl, clear_lines_game_over b,
    fun rand rk n r hr => (add_garbage_fields n b rand rk r hr).1⟩

/-- C3 witness: the amended theorem applied to the concrete terminal
board `bC3` and piece O placed at the origin. -/
theorem c3_terminal_preserved_witness :
    (bC3.place_piece (Tetromino.mk' Pc.O) 0 0).is_game_over = true :=
  (c3_terminal_preserved bC3 (Tetromino.mk' Pc.O) 0 0 (by decide)).1

/-- C4 counterexample: on `bC4` (only the top-left cell filled), for
piece I at rotation 0 and the in-range column x = 0, a valid resting row
exists (`can_place` holds at y = 19), yet the drop simulation skips the
combination because `can_place` already fails at y = 0 — refuting the
claim that the piece rests at the largest y at which `can_place` holds
and that a combination is skipped only when no valid resting row exists. -/
theorem c4_counterexample :
    dropSim bC4 (Tetromino.mk' Pc.I) 0 = none ∧
    bC4.can_place (Tetromino.mk' Pc.I) 0 19 = true ∧
    0 < bC4.width + 1 - (Tetromino.mk' Pc.I).get_width := by decide

/-- C4 (amended): the hard-drop simulation rests the piece at the largest
row y such that `can_place` holds at every row from 0 through y (straight
descent from the top), and it skips the combination exactly when the
descent cannot start, i.e. when the board has no rows or `can_place`
fails already at row 0 — even if a deeper valid resting row exists. -/
theorem c4_drop_rests_contiguous (b : GameBoard) (piece : Tetromino) (x : Int) :
    (dropSim b piece x = none ↔ ¬(0 < b.height ∧ b.can_place piece x 0 = true)) ∧
    (∀ y, dropSim b piece x = some y →
      y < b.height ∧ (∀ k, k ≤ y → b.can_place piece x (k : Int) = true) ∧
      (y + 1 < b.height → b.can_place piece x ((y : Int) + 1) = false)) := by
  obtain ⟨h1, h2, h3⟩ := dropLoopAux_spec b piece x (b.height - 0) 0 (Nat.le_refl _)
  set ye := dropLoopAux b piece x (b.height - 0) 0 with hye
  have hsim : dropSim b piece x =
      if 1 ≤ ye ∧ b.can_place piece x ((ye : Int) - 1) = true then some (ye - 1)
      else none := rfl
  constructor
  · constructor
    · intro hnone hcon
      rw [hsim] at hnone
      rcases Nat.eq_zero_or_pos ye with hz | hp
      · rw [hz] at h3
        exact h3 ⟨hcon.1, by simpa using hcon.2⟩
      · have hcp : b.can_place piece x ((ye : Int) - 1) = true := by
          have := (h2 (ye - 1) (Nat.zero_le _) (by omega)).2
          have hcast : ((ye - 1 : Nat) : Int) = (ye : Int) - 1 := by omega
          rwa [hcast] at this
        rw [if_pos ⟨hp, hcp⟩] at hnone
        exact absurd hnone (by simp)
    · intro hno
      rw [hsim]
      rcases Nat.eq_zero_or_pos ye with hz | hp
      · rw [hz]
        simp
      · exfalso
        have h00 := h2 0 (Nat.le_refl 0) hp
        exact hno ⟨h00.1, by simpa using h00.2⟩
  · intro y hsome
    rw [hsim] at hsome
    by_cases hc : 1 ≤ ye ∧ b.can_place piece x ((ye : Int) - 1) = true
    · rw [if_pos hc] at hsome
      have hy : y = ye - 1 := by
        have := Option.some.inj hsome
        omega
      subst hy
      have hlt : ye - 1 < ye := by omega
      refine ⟨(h2 (ye - 1) (Nat.zero_le _) hlt).1, ?_, ?_⟩
      · intro k hk
        exact (h2 k (Nat.zero_le _) (by omega)).2
      · intro hlt2
        have hee : ye - 1 + 1 = ye := by omega
        rw [hee] at hlt2
        have hcast : ((ye - 1 : Nat) : Int) + 1 = (ye : Int) := by omega
        rw [hcast]
        by_contra hcp
        exact h3 ⟨hlt2, by simpa using hcp⟩
    · rw [if_neg hc] at hsome
      exact absurd hsome (by simp)

/-- C4 witness: the amended characterization applied to the empty 10 by
20 board, piece I, column 0, where the drop rests at row 19. -/
theorem c4_drop_rests_contiguous_witness :
    (GameBoard.init 10 20).can_place (Tetromino.mk' Pc.I) 0 (19 : Nat) = true ∧
    19 < (GameBoard.init 10 20).height :=
  ⟨((c4_drop_rests_contiguous (GameBoard.init 10 20) (Tetromino.mk' Pc.I) 0).2
      19 (by decide)).2.1 19 (Nat.le_refl 19),
   ((c4_drop_rests_contiguous (GameBoard.init 10 20) (Tetromino.mk' Pc.I) 0).2
      19 (by decide)).1⟩

/-- C7: a draw from the pool succeeds exactly when the type's count is
strictly positive; success decrements that count by one and touches no
other count; failure leaves the pool unchanged; and from an initial
count of 15 for type I, each of the first 15 draws of I succeeds, after
which I is unavailable and the 16th draw fails. -/
theorem c7_pool_draw (fb : FigureBank) (t : Pc) :
    ((fb.get_piece t).1 = true ↔ 0 < fb.bank t) ∧
    (0 < fb.bank t →
      (fb.get_piece t).2.bank t + 1 = fb.bank t ∧
      ∀ u, u ≠ t → (fb.get_piece t).2.bank u = fb.bank u) ∧
    (¬0 < fb.bank t → fb.get_piece t = (false, fb)) ∧
    (fb.is_available t = true ↔ 0 < fb.bank t) ∧
    ((∀ k, k < 15 → ((drawI^[k] (FigureBank.init 15)).get_piece Pc.I).1 = true) ∧
      (drawI^[15] (FigureBank.init 15)).is_available Pc.I = false ∧
      ((drawI^[15] (FigureBank.init 15)).get_piece Pc.I).1 = false) := by
  refine ⟨?_, ?_, ?_, ?_, by decide, by decide, by decide⟩
  · by_cases h : 0 < fb.bank t <;> simp [FigureBank.get_piece, h]
  · intro h
    constructor
    · simp [FigureBank.get_piece, h]
      omega
    · intro u hu
      simp [FigureBank.get_piece, h, hu]
  · intro h
    simp [FigureBank.get_piece, h]
  · by_cases h : 0 < fb.bank t <;> simp [FigureBank.is_available, h]

/-- C7 witness: one draw of piece O from a pool of 2 decrements O's count
from 2 to 1 and leaves I's count unchanged. -/
theorem c7_pool_draw_witness :
    ((FigureBank.init 2).get_piece Pc.O).2.bank Pc.O + 1 = (FigureBank.init 2).bank Pc.O ∧
    ((FigureBank.init 2).get_piece Pc.O).2.bank Pc.I = (FigureBank.init 2).bank Pc.I :=
  ⟨((c7_pool_draw (FigureBank.init 2) Pc.O).2.1 (by decide)).1,
   ((c7_pool_draw (FigureBank.init 2) Pc.O).2.1 (by decide)).2 Pc.I (by decide)⟩

/-- C8: `add_garbage_lines(n)` removes the n topmost rows and appends n
garbage rows at the bottom (closed form: drop n of the grid with the n
garbage rows appended), preserving the total row count, and each injected
row is fully filled except exactly one empty cell at the oracle-chosen
column. -/
theorem c8_add_garbage (b : GameBoard) (rand : Nat → Nat) (n rk : Nat)
    (hlen : b.grid.length = b.height) (hh : 0 < b.height) (hw : 0 < b.width) :
    b.add_garbage_lines rand rk n =
      some ({ b with grid := (b.grid ++ (List.range n).map fun i =>
        garbageRow b.width (rand (rk + i) % b.width)).drop n }, rk + n) ∧
    (∀ r, b.add_garbage_lines rand rk n = some r →
      r.1.grid.length = b.grid.length) ∧
    (n ≤ b.grid.length →
      ((b.grid ++ (List.range n).map fun i =>
          garbageRow b.width (rand (rk + i) % b.width)).drop n) =
        b.grid.drop n ++ (List.range n).map fun i =>
          garbageRow b.width (rand (rk + i) % b.width)) ∧
    (∀ i, i < n →
      (garbageRow b.width (rand (rk + i) % b.width)).length = b.width ∧
      (garbageRow b.width (rand (rk + i) % b.width)).count 0 = 1 ∧
      (garbageRow b.width (rand (rk + i) % b.width)).getD
        (rand (rk + i) % b.width) 1 = 0) := by
  have hpos : 0 < b.grid.length := by omega
  have hmain := add_garbage_spec rand n b rk hpos
  refine ⟨hmain, ?_, ?_, ?_⟩
  · intro r hr
    rw [hmain] at hr
    have hr1 := (Option.some.inj hr).symm
    rw [hr1]
    simp only [List.length_drop, List.length_append, List.length_map, List.length_range]
    omega
  · intro hn
    exact List.drop_append_of_le_length hn
  · intro i _
    have hhole : rand (rk + i) % b.width < b.width := Nat.mod_lt _ hw
    exact ⟨garbageRow_length _ _, garbageRow_count _ _ hhole, garbageRow_hole _ _ hhole⟩

/-- C8 witness: one garbage line injected into the empty 2 by 2 board
(hole oracle constant 0) pops the empty top row and appends `[0, 1]`. -/
theorem c8_add_garbage_witness :
    (GameBoard.init 2 2).add_garbage_lines (fun _ => 0) 0 1 =
      some ({ GameBoard.init 2 2 with
        grid := ((GameBoard.init 2 2).grid ++ (List.range 1).map fun i =>
          garbageRow (GameBoard.init 2 2).width
            ((fun _ => 0) (0 + i) % (GameBoard.init 2 2).width)).drop 1 }, 0 + 1) :=
  (c8_add_garbage (GameBoard.init 2 2) (fun _ => 0) 1 0 (by decide) (by decide)
    (by decide)).1

/-- C5: `clear_lines()` returns the number of fully filled rows, removes
exactly those rows while inserting an equal number of all-empty rows at
the top (preserving the relative order of the remaining rows), adds the
count to the lines-cleared total, scores 100/300/500/800 for 1/2/3/4 and
count times 100 for any other nonzero count, and leaves everything
unchanged when no row is full. -/
theorem c5_clear_lines (b : GameBoard) (hlen : b.grid.length = b.height) :
    (b.clear_lines).2 = b.grid.countP rowFull ∧
    (b.clear_lines).1.grid =
      List.replicate (b.grid.countP rowFull) (List.replicate b.width 0) ++
        b.grid.filter (fun r => !rowFull r) ∧
    (b.clear_lines).1.lines_cleared = b.lines_cleared + (b.clear_lines).2 ∧
    ((b.clear_lines).2 = 0 → b.clear_lines = (b, 0)) ∧
    ((b.clear_lines).2 = 1 → (b.clear_lines).1.score = b.score + 100) ∧
    ((b.clear_lines).2 = 2 → (b.clear_lines).1.score = b.score + 300) ∧
    ((b.clear_lines).2 = 3 → (b.clear_lines).1.score = b.score + 500) ∧
    ((b.clear_lines).2 = 4 → (b.clear_lines).1.score = b.score + 800) ∧
    (5 ≤ (b.clear_lines).2 → (b.clear_lines).1.score = b.score + (b.clear_lines).2 * 100) := by
  obtain ⟨h2, hgrid, _, _, hlc, hsc, h0⟩ := clear_lines_spec b hlen
  have hscn : ∀ m, (b.clear_lines).2 = m → m ≠ 0 →
      (b.clear_lines).1.score = b.score + scoreFor m := by
    intro m hm hmne
    rw [hsc, ← h2, hm, if_neg hmne]
  refine ⟨h2, hgrid, by rw [hlc, h2], fun hz => h0 (by omega), ?_, ?_, ?_, ?_, ?_⟩
  · intro h1
    rw [hscn 1 h1 (by omega)]
    rfl
  · intro h1
    rw [hscn 2 h1 (by omega)]
    rfl
  · intro h1
    rw [hscn 3 h1 (by omega)]
    rfl
  · intro h1
    rw [hscn 4 h1 (by omega)]
    rfl
  · intro h5
    rw [hscn ((b.clear_lines).2) rfl (by omega), scoreFor_of_ge _ h5]

/-- C5 witness: the spec scenario — a single full bottom row on the 10 by
20 board clears one line, empties the grid, and scores exactly 100. -/
theorem c5_clear_lines_witness :
    (bFull.clear_lines).2 = 1 ∧
    (bFull.clear_lines).1.score = bFull.score + 100 ∧
    (bFull.clear_lines).1.grid = List.replicate 20 (List.replicate 10 0) := by
  have h := c5_clear_lines bFull (by decide)
  have h1 : (bFull.clear_lines).2 = 1 := by
    rw [h.1]
    decide
  refine ⟨h1, h.2.2.2.2.1 h1, ?_⟩
  rw [h.2.1]
  decide

/-- C9: immediately after `clear_lines()` no row of the grid is fully
filled, so a second call in a row clears nothing and leaves the board
(grid, score, lines-cleared total) unchanged. -/
theorem c9_clear_idempotent (b : GameBoard) (hlen : b.grid.length = b.height)
    (hw : 0 < b.width) :
    (∀ row ∈ (b.clear_lines).1.grid, rowFull row = false) ∧
    (b.clear_lines).1.clear_lines = ((b.clear_lines).1, 0) := by
  obtain ⟨h2, hgrid, hwidth, hheight, _, _, _⟩ := clear_lines_spec b hlen
  have hnofull : ∀ row ∈ (b.clear_lines).1.grid, rowFull row = false := by
    intro row hrow
    rw [hgrid] at hrow
    rcases List.mem_append.mp hrow with hempty | hkeep
    · have hrow0 : row = List.replicate b.width 0 := (List.mem_replicate.mp hempty).2
      rw [hrow0]
      refine List.all_eq_false.mpr ⟨0, ?_, by decide⟩
      exact List.mem_replicate.mpr ⟨by omega, rfl⟩
    · have := (List.mem_filter.mp hkeep).2
      simp only [Bool.not_eq_true'] at this
      simpa using this
  refine ⟨hnofull, ?_⟩
  have hlen2 : (b.clear_lines).1.grid.length = (b.clear_lines).1.height := by
    rw [hgrid, hheight, List.length_append, List.length_replicate, ← hlen]
    have hsplit := List.length_eq_countP_add_countP rowFull b.grid
    have hfilt : (b.grid.filter (fun r => !rowFull r)).length =
        b.grid.countP (fun r => !rowFull r) := by
      rw [List.countP_eq_length_filter]
    rw [hfilt]
    have heq : b.grid.countP (fun r => !rowFull r) =
        b.grid.countP (fun r => decide ¬rowFull r = true) := by
      refine List.countP_congr fun r _ => ?_
      simp
    omega
  obtain ⟨g2, ggrid, _, _, _, _, gzero⟩ := clear_lines_spec (b.clear_lines).1 hlen2
  have hcnt0 : (b.clear_lines).1.grid.countP rowFull = 0 :=
    List.countP_eq_zero.mpr fun row hrow => by
      rw [hnofull row hrow]
      simp
  exact gzero hcnt0

/-- C9 witness: idempotence on the concrete board `bC3`. -/
theorem c9_clear_idempotent_witness :
    (bC3.clear_lines).1.clear_lines = ((bC3.clear_lines).1, 0) :=
  (c9_clear_idempotent bC3 (by decide) (by decide)).2

/-- C10: `place_piece` is total for every integer offset: it leaves the
score, lines-cleared total, `game_over` flag and the grid dimensions
unchanged, and sets to 1 exactly the in-bounds cells covered by occupied
piece cells, leaving every other cell as it was (out-of-bounds targets
are silently skipped). -/
theorem c10_place_piece_total (b : GameBoard) (p : Tetromino) (x y : Int)
    (hlen : b.grid.length = b.height) (hrows : ∀ row ∈ b.grid, row.length = b.width) :
    (b.place_piece p x y).score = b.score ∧
    (b.place_piece p x y).lines_cleared = b.lines_cleared ∧
    (b.place_piece p x y).game_over = b.game_over ∧
    (b.place_piece p x y).grid.length = b.grid.length ∧
    (∀ i, ((b.place_piece p x y).grid.getD i []).length = (b.grid.getD i []).length) ∧
    (∀ r c, r < b.height → c < b.width →
      cellAt (b.place_piece p x y).grid r c =
        if coveredB p x y r c then 1 else cellAt b.grid r c) := by
  have hflat := place_grid_flat b p x y
  refine ⟨rfl, rfl, rfl, ?_, ?_, ?_⟩
  · rw [hflat]
    exact (place_fold_dims b x y (placeWrites p) b.grid).1
  · intro i
    rw [hflat]
    exact (place_fold_dims b x y (placeWrites p) b.grid).2 i
  · intro r c hrc hcc
    have hrows2 : ∀ i, i < b.grid.length → (b.grid.getD i []).length = b.width := by
      intro i hi
      rw [List.getD_eq_getElem _ _ hi]
      exact hrows _ (List.getElem_mem hi)
    rw [hflat, cellAt_writes b x y (placeWrites p) b.grid hlen hrows2 r c hrc hcc,
      ← coveredB_eq_writes_any]

/-- C10 witness: piece O placed at offset (-1, 1) on the empty 2 by 2
board fills exactly the single in-bounds covered cell (1, 0). -/
theorem c10_place_piece_total_witness :
    cellAt ((GameBoard.init 2 2).place_piece (Tetromino.mk' Pc.O) (-1) 1).grid 1 0 = 1 ∧
    cellAt ((GameBoard.init 2 2).place_piece (Tetromino.mk' Pc.O) (-1) 1).grid 0 0 =
      cellAt (GameBoard.init 2 2).grid 0 0 := by
  have h := (c10_place_piece_total (GameBoard.init 2 2) (Tetromino.mk' Pc.O) (-1) 1
    (by decide) (by decide)).2.2.2.2.2
  constructor
  · rw [h 1 0 (by decide) (by decide)]
    decide
  · rw [h 0 0 (by decide) (by decide)]
    decide

/-- C6: `decide_placement` is deterministic (it is a pure function of the
grid, piece and strategy) and returns the first placement attaining the
maximum heuristic score in rotation-ascending then x-ascending order
(strict greater-than tie-break, so the first maximizer wins: every
earlier candidate scores strictly less, every later one no more), and
falls back to `(width // 2, 0, 0)` when no valid placement exists. -/
theorem c6_decide_first_maximizer (strategy : String) (b : GameBoard) (t : Pc) :
    (candList strategy b t = [] → decide_placement strategy b t = (b.width / 2, 0, 0)) ∧
    (∀ d cs, candList strategy b t = d :: cs →
      ∃ c l1 l2, candList strategy b t = l1 ++ c :: l2 ∧
        decide_placement strategy b t = c.1 ∧
        (∀ a ∈ l1, a.2 < c.2) ∧ (∀ a ∈ l2, a.2 ≤ c.2)) := by
  constructor
  · intro hnil
    unfold decide_placement
    rw [decideCore_eq_foldl, hnil]
    rfl
  · intro d cs hlist
    obtain ⟨c, l1, l2, hfold, hsplit, hl1, hl2⟩ := argmax_fold cs d
    have hrun : (d :: cs).foldl argStep none = some c := by
      rw [List.foldl_cons]
      have h0 : argStep none d = some d := rfl
      rw [h0, hfold]
    refine ⟨c, l1, l2, by rw [hlist, hsplit], ?_, hl1, hl2⟩
    unfold decide_placement
    rw [decideCore_eq_foldl, hlist, hrun]

/-- C6 witness: on the blocked board `bAllOnes` the fallback (1, 0, 0) is
returned; on the empty 2 by 2 board with piece O all four rotations tie
at score -4 and the first candidate (x 0, y 0, rotation 0) wins. -/
theorem c6_decide_first_maximizer_witness :
    decide_placement "greedy" bAllOnes Pc.O = (bAllOnes.width / 2, 0, 0) ∧
    (∃ c l1 l2, candList "greedy" (GameBoard.init 2 2) Pc.O = l1 ++ c :: l2 ∧
      decide_placement "greedy" (GameBoard.init 2 2) Pc.O = c.1 ∧
      (∀ a ∈ l1, a.2 < c.2) ∧ (∀ a ∈ l2, a.2 ≤ c.2)) :=
  ⟨(c6_decide_first_maximizer "greedy" bAllOnes Pc.O).1 (by decide),
   (c6_decide_first_maximizer "greedy" (GameBoard.init 2 2) Pc.O).2 ((0, 0, 0), -4)
     [((0, 0, 1), -4), ((0, 0, 2), -4), ((0, 0, 3), -4)] (by decide)⟩

set_option maxHeartbeats 4000000 in
/-- C1 (behaviour at the failing input): in the arena state `stC1`, side
A's decided placement is the fallback (5, 0, 0), it fails `can_place`,
and running `run_match` for one turn marks A's board `game_over` flag —
yet `is_game_over()` (which only reads the top row) stays false, side B's
turn still executes (one B turn event is logged, 3 events in total) and
the loop only ends by the max-turns score comparison. The winner "B"
here comes from the score tie-break, not from an immediate loss. -/
theorem c1_invalid_fallback_match_continues :
    decide_placement "greedy" stC1.board1 Pc.O = (5, 0, 0) ∧
    stC1.board1.can_place ((Tetromino.mk' Pc.O).rotN 0) 5 0 = false ∧
    (run_match stC1 randC1 clockC0 1).map (fun r =>
      (r.1, r.2.board1.game_over, r.2.board1.is_game_over,
        r.2.events.countP (isTurnEvOf "B"), r.2.events.length)) =
      some ("B", true, false, 1, 3) :=
  ⟨by decide, by decide, by decide⟩

set_option maxHeartbeats 4000000 in
/-- C2 (behaviour at the failing input): in a fresh match `stC2`, side
A's decided and committed placement for piece I is (0, 19, 0) — the
resulting board has cell (19, 0) filled and cell (0, 0) empty — but the
placement recorded in the first log event is the hardcoded (0, 0, 0). -/
theorem c2_log_placement_stub :
    decide_placement "greedy" stC2.board1 Pc.I = (0, 19, 0) ∧
    (run_match stC2 randC2 clockC0 1).map (fun r =>
      (eventPlacement (r.2.events.headD (Event.gameOverEv "" 0 0 0 0 0)),
        cellAt r.2.board1.grid 19 0, cellAt r.2.board1.grid 0 0)) =
      some (some (0, 0, 0), 1, 0) :=
  ⟨by decide, by decide⟩

end TetrisArena
